import Mathlib

/-!
Shallow embedding of `src/complex-utils.py` (a small Python utility module)
and verification of its behavioral contract.

Modelling conventions:
* Python strings are modelled as `List ℕ` of Unicode code points (the code
  manipulates characters only through `ord`/`chr` and ASCII-level
  `upper`/`lower`/`strip`, so code-point lists are the faithful unit).
* `str.upper` / `str.lower` / `str.strip` are modelled on the ASCII range,
  which covers every string the module compares against ("active",
  "enabled", the `'|'` separator and the filter characters).
* Python floats are modelled with exact arithmetic: the accumulators of
  `calculate_complex_metric` are rationals and the final
  `floor(total + log product)` is taken over `ℝ` with `Real.log`.
* Exceptions are modelled as `Option`/explicit outcome records.
-/

/-- Code point of the separator character `'|'`. -/
def barCP : ℕ := 124

/-- Code points of a Lean string literal, used to write concrete Python
strings such as "active" conveniently. -/
def strCP (s : String) : List ℕ := s.data.map Char.toNat

/-- `str.upper` on one code point, ASCII range (a-z ↦ A-Z). -/
def pyUpperChar (c : ℕ) : ℕ := if 97 ≤ c ∧ c ≤ 122 then c - 32 else c

/-- `str.upper` on a whole string. -/
def pyUpper (s : List ℕ) : List ℕ := s.map pyUpperChar

/-- `str.lower` on one code point, ASCII range (A-Z ↦ a-z). -/
def pyLowerChar (c : ℕ) : ℕ := if 65 ≤ c ∧ c ≤ 90 then c + 32 else c

/-- `str.lower` on a whole string. -/
def pyLower (s : List ℕ) : List ℕ := s.map pyLowerChar

/-- Python whitespace (ASCII part), as stripped by `str.strip()`:
space, tab, newline, vertical tab, form feed, carriage return. -/
def isPySpace (c : ℕ) : Bool :=
  c = 32 || c = 9 || c = 10 || c = 11 || c = 12 || c = 13

/-- `str.strip()`: drop whitespace from both ends. -/
def pyStrip (s : List ℕ) : List ℕ :=
  ((s.dropWhile isPySpace).reverse.dropWhile isPySpace).reverse

/-- `needle` is a leading segment of `hay`. -/
def leadsWith : List ℕ → List ℕ → Bool
  | [], _ => true
  | _ :: _, [] => false
  | a :: as, b :: bs => a = b && leadsWith as bs

/-- Python substring containment `needle in hay` (contiguous). -/
def hasSub (needle : List ℕ) : List ℕ → Bool
  | [] => leadsWith needle []
  | c :: rest => leadsWith needle (c :: rest) || hasSub needle rest

/-- Python `s.strip(sep)` for the single character `'|'`: remove every
leading and trailing occurrence of the bar code point. -/
def stripBar (s : List ℕ) : List ℕ :=
  ((s.dropWhile (fun c => c = barCP)).reverse.dropWhile (fun c => c = barCP)).reverse

/-- Highest Unicode code point; `chr` raises `ValueError` above it. -/
def maxCP : ℕ := 1114111

/-- The inner loop of lines 26-28: shift every code point of one item by
+1 via `chr(ord(char_val) + 1)`.  `none` models `chr` raising `ValueError`
when a shifted code point exceeds `maxCP` (the raw increment does not wrap,
so shifting U+10FFFF fails). -/
def shiftItem : List ℕ → Option (List ℕ)
  | [] => some []
  | c :: rest =>
    if c + 1 ≤ maxCP then (shiftItem rest).map (fun p => (c + 1) :: p)
    else none

/-- First loop of `process_and_filter_data` (lines 21-30): skip items whose
length exceeds `max_length`, shift every code point of the rest by +1, and
collect the results in order into `temp_storage`.  `none` models the
`ValueError` from `chr` propagating out of the function (there is no
`try` around this loop). -/
def buildTemp (max_length : ℕ) : List (List ℕ) → Option (List (List ℕ))
  | [] => some []
  | item :: rest =>
    if item.length > max_length then buildTemp max_length rest
    else
      match shiftItem item with
      | some p => (buildTemp max_length rest).map (fun l => p :: l)
      | none => none

/-- Second loop of `process_and_filter_data` (lines 32-38): keep a processed
item iff its upper-cased form contains the upper-cased `filter_char` as a
substring; reverse kept items of even length. -/
def buildFiltered (filter_char : List ℕ) : List (List ℕ) → List (List ℕ)
  | [] => []
  | p :: rest =>
    if hasSub (pyUpper filter_char) (pyUpper p) then
      (if p.length % 2 = 0 then p.reverse else p) :: buildFiltered filter_char rest
    else buildFiltered filter_char rest

/-- Third loop of `process_and_filter_data` (lines 40-42): append each
surviving item followed by one `'|'`. -/
def joinLoop : List (List ℕ) → List ℕ
  | [] => []
  | s :: rest => s ++ [barCP] ++ joinLoop rest

/-- The surviving (transformed, filtered, conditionally reversed) items of
`process_and_filter_data`, in order; `none` when the shift loop raises. -/
def survivors (data_list : List (List ℕ)) (filter_char : List ℕ) (max_length : ℕ) :
    Option (List (List ℕ)) :=
  (buildTemp max_length data_list).map (buildFiltered filter_char)

/-- `process_and_filter_data` (lines 4-44): the three loops followed by
`final_result.strip('|') if final_result else ""`; `none` when the
uncaught `ValueError` of the shift loop propagates to the caller. -/
def process_and_filter_data (data_list : List (List ℕ)) (filter_char : List ℕ)
    (max_length : ℕ) : Option (List ℕ) :=
  match buildTemp max_length data_list with
  | none => none
  | some temp_storage =>
    if joinLoop (buildFiltered filter_char temp_storage) = [] then some []
    else some (stripBar (joinLoop (buildFiltered filter_char temp_storage)))

/-- Python truthiness of a value vs `None`, instance checks and the int
value that `check_status_A`/`check_status_B` observe.  `bool` is a separate
constructor because Python's `bool` is a subtype of `int`
(`isinstance(True, int)` is `True`, `True == 1`, `False == 0`). -/
inductive PyValue where
  | pynone
  | pystr (s : List ℕ)
  | pyint (n : ℤ)
  | pybool (b : Bool)
  | pyother
  deriving DecidableEq

/-- `isinstance(value, str)`. -/
def PyValue.isInstStr : PyValue → Bool
  | .pystr _ => true
  | _ => false

/-- `isinstance(value, int)`; true for `bool` as well, since Python's
`bool` is a subtype of `int`. -/
def PyValue.isInstInt : PyValue → Bool
  | .pyint _ => true
  | .pybool _ => true
  | _ => false

/-- The integer a `PyValue` denotes in an `int` comparison (`True == 1`,
`False == 0`; only meaningful when `isInstInt`). -/
def PyValue.intVal : PyValue → ℤ
  | .pyint n => n
  | .pybool b => if b then 1 else 0
  | _ => 0

/-- The code points a `PyValue` denotes as a string (only meaningful when
`isInstStr`). -/
def PyValue.strVal : PyValue → List ℕ
  | .pystr s => s
  | _ => []

/-- `check_status_A` (lines 117-135): `None` ↦ False; a string ↦ whether
`value.strip().lower() == "active"`; an int (including bool) ↦ whether
`value > 0`; anything else ↦ False. -/
def check_status_A (value : PyValue) : Bool :=
  if value = .pynone then false
  else if value.isInstStr && decide (pyLower (pyStrip value.strVal) = strCP "active") then true
  else if value.isInstInt && decide (0 < value.intVal) then true
  else false

/-- `check_status_B` (lines 137-159), the evident intent of the source:
`None` ↦ False; a string ↦ whether `value.strip().lower() == "enabled"`;
an int (including bool) ↦ whether `value >= 0`; anything else ↦ False.
Line 155 of the source reads
`if isinstance(value, str) value.strip().lower() == "enabled":`,
which is missing the keyword `and` and is a Python syntax error; this
definition follows the function's docstring (lines 141-145) and the evident
intent, inserting the missing `and`. -/
def check_status_B (value : PyValue) : Bool :=
  if value = .pynone then false
  else if value.isInstStr && decide (pyLower (pyStrip value.strVal) = strCP "enabled") then true
  else if value.isInstInt && decide (0 ≤ value.intVal) then true
  else false

/-- An input element of `calculate_complex_metric`: `some q` for an element
that `float(val)` converts to the number `q`, `none` for an element on
which the conversion raises (caught by the `except` clauses). -/
abbrev MetricElem := Option ℚ

/-- The accumulation loop of `calculate_complex_metric` (lines 66-77):
fold over the remaining elements carrying the running zero-based index `i`
and the accumulator pair `(total_sum, product_sum)`.  A convertible element
`some x` contributes `x / (i+1)` to the sum and a factor `x + wf` to the
product; a non-convertible element is skipped by the exception handler and
contributes nothing, while the index still advances. -/
def metricLoop (wf : ℚ) : List MetricElem → ℕ → ℚ × ℚ → ℚ × ℚ
  | [], _, acc => acc
  | some x :: rest, i, (t, p) =>
    metricLoop wf rest (i + 1) (t + x / (i + 1), p * (x + wf))
  | none :: rest, i, (t, p) => metricLoop wf rest (i + 1) (t, p)

/-- `calculate_complex_metric` (lines 47-79): return `0.0` on an empty
input; otherwise run the loop from index 0 with `total_sum = 0`,
`product_sum = 1` and return `floor(total_sum + log(product_sum))` when
`product_sum > 0`, else `0.0`. -/
noncomputable def calculate_complex_metric (values : List MetricElem) (wf : ℚ) : ℝ :=
  if values = [] then 0
  else if 0 < (metricLoop wf values 0 (0, 1)).2 then
    ((⌊((metricLoop wf values 0 (0, 1)).1 : ℝ) +
      Real.log ((metricLoop wf values 0 (0, 1)).2 : ℝ)⌋ : ℤ) : ℝ)
  else 0

/-- Closed form of the claim for `total_sum`: the sum over the
successfully coerced elements of `value / (i + 1)`, `i` the element's
zero-based position in the original sequence. -/
def totalSum (values : List MetricElem) : ℚ :=
  ((values.enum).map (fun p =>
    match p.2 with
    | some x => x / ((p.1 : ℚ) + 1)
    | none => 0)).sum

/-- Closed form of the claim for `product_sum`: the product, starting from
1, of `value + weight_offset` over the successfully coerced elements. -/
def productSum (wf : ℚ) (values : List MetricElem) : ℚ :=
  ((values.enum).map (fun p =>
    match p.2 with
    | some x => x + wf
    | none => 1)).prod

/-- The XOR comprehension of `read_and_process_file_content` (line 107),
run from position `i`: each remaining code point is XORed with the key
code point at `i % len(key)`.  `none` models the comprehension raising:
`ZeroDivisionError` when the key is empty (from `i % 0`), or `ValueError`
from `chr` when a XOR result exceeds `maxCP`. -/
def obfLoop (key : List ℕ) : List ℕ → ℕ → Option (List ℕ)
  | [], _ => some []
  | c :: rest, i =>
    if key.length = 0 then none
    else if c ^^^ key.getD (i % key.length) 0 ≤ maxCP then
      (obfLoop key rest (i + 1)).map (fun out => (c ^^^ key.getD (i % key.length) 0) :: out)
    else none

/-- The repeating-key XOR character transform applied to a whole content
string (line 107): `some` of the transformed code points, or `none` when
the comprehension raises. -/
def obfuscate (content key : List ℕ) : Option (List ℕ) := obfLoop key content 0

/-- The observable environment of one `read_and_process_file_content`
call: whether `os.path.exists(filepath)` holds, whether `open(filepath)`
succeeds, whether `f.read()` succeeds, and the text the read yields. -/
structure FileEnv where
  pathExists : Bool
  openOk : Bool
  readOk : Bool
  content : List ℕ
  deriving DecidableEq

/-- The observable outcome of one `read_and_process_file_content` call:
the returned value (`none` both for a `return None` and when an exception
escapes), whether an exception propagated to the caller, whether the file
handle was acquired, and whether it was released by the end. -/
structure RunOutcome where
  result : Option (List ℕ)
  raised : Bool
  acquired : Bool
  released : Bool
  deriving DecidableEq

/-- `read_and_process_file_content` (lines 81-114) over an explicit file
environment.  If the path does not exist: print and `return None` (no
handle ever acquired).  Then `f = open(filepath, 'r')` runs OUTSIDE the
`try` block (line 103), so a failing `open` lets the exception propagate
with no handle acquired.  Once inside `try`/`finally`, a failing `read` or
a raising XOR comprehension is caught by `except Exception` and `None` is
returned, and the `finally` block closes the handle on every such path as
well as on the successful one. -/
def read_and_process_file_content (env : FileEnv) (key : List ℕ) : RunOutcome :=
  if env.pathExists = false then
    { result := none, raised := false, acquired := false, released := false }
  else if env.openOk = false then
    { result := none, raised := true, acquired := false, released := false }
  else if env.readOk = false then
    { result := none, raised := false, acquired := true, released := true }
  else
    match obfuscate env.content key with
    | some processed =>
      { result := some processed, raised := false, acquired := true, released := true }
    | none =>
      { result := none, raised := false, acquired := true, released := true }

/-- One step of the XOR loop undoes itself: XORing with the same key
character at the same position recovers the original code point. -/
lemma xor_key_cancel (c k : ℕ) : (c ^^^ k) ^^^ k = c := by
  rw [Nat.xor_assoc, Nat.xor_self, Nat.xor_zero]

/-- The XOR loop is an involution from any starting position, for a
non-empty key and in-range content. -/
lemma obfLoop_invol (key : List ℕ) (hk : key.length ≠ 0) :
    ∀ (content : List ℕ) (i : ℕ) (out : List ℕ), (∀ c ∈ content, c ≤ maxCP) →
      obfLoop key content i = some out → obfLoop key out i = some content := by
  intro content
  induction content with
  | nil =>
    intro i out _ h
    simp only [obfLoop, Option.some.injEq] at h
    subst h
    simp [obfLoop]
  | cons c rest ih =>
    intro i out hbound h
    rw [obfLoop, if_neg hk] at h
    by_cases hc : c ^^^ key.getD (i % key.length) 0 ≤ maxCP
    · rw [if_pos hc] at h
      rcases Option.map_eq_some'.mp h with ⟨out2, h2, hout⟩
      subst hout
      have hrest := ih (i + 1) out2 (fun x hx => hbound x (List.mem_cons_of_mem _ hx)) h2
      have hcle : c ≤ maxCP := hbound c (List.mem_cons_self _ _)
      rw [obfLoop, if_neg hk, xor_key_cancel, if_pos hcle, hrest]
      rfl
    · rw [if_neg hc] at h
      exact absurd h (by simp)

/-- C2: the repeating-key XOR transform of `read_and_process_file_content`
is an involution: for any content of valid code points and any non-empty
key, if the transform succeeds (every intermediate XOR stays within the
representable character range), applying it again with the same key
recovers the original content. -/
theorem obfuscate_roundtrip (content key out : List ℕ) (hkey : key ≠ [])
    (hrange : ∀ c ∈ content, c ≤ maxCP)
    (h : obfuscate content key = some out) :
    obfuscate out key = some content := by
  have hk : key.length ≠ 0 := fun h0 => hkey (List.length_eq_zero.mp h0)
  exact obfLoop_invol key hk content 0 out hrange h

/-- Witness for C2 at concrete input: content "HI" ([72, 73]) with key
"K" ([75]) obfuscates to [3, 2], and obfuscating [3, 2] again returns
[72, 73]. -/
theorem obfuscate_roundtrip_witness : obfuscate [3, 2] [75] = some [72, 73] :=
  obfuscate_roundtrip [72, 73] [75] [3, 2] (by decide) (by decide) (by decide)

/-- C8: `check_status_A` returns false for `None`; true for a string that,
after stripping and lower-casing, equals "active" (in particular "Active"
and "ACTIVE "); false for any other string; true for every integer > 0;
false for 0, for negative integers and for any other type. -/
theorem check_status_A_spec :
    check_status_A .pynone = false
    ∧ check_status_A (.pystr (strCP "Active")) = true
    ∧ check_status_A (.pystr (strCP "ACTIVE ")) = true
    ∧ (∀ s : List ℕ, pyLower (pyStrip s) = strCP "active" →
        check_status_A (.pystr s) = true)
    ∧ (∀ s : List ℕ, pyLower (pyStrip s) ≠ strCP "active" →
        check_status_A (.pystr s) = false)
    ∧ (∀ n : ℤ, 0 < n → check_status_A (.pyint n) = true)
    ∧ check_status_A (.pyint 0) = false
    ∧ (∀ n : ℤ, n < 0 → check_status_A (.pyint n) = false)
    ∧ check_status_A .pyother = false := by
  refine ⟨by decide, by decide, by decide, ?_, ?_, ?_, by decide, ?_, by decide⟩
  · intro s h
    simp [check_status_A, PyValue.isInstStr, PyValue.strVal, h]
  · intro s h
    simp [check_status_A, PyValue.isInstStr, PyValue.isInstInt, PyValue.strVal, h]
  · intro n h
    simp [check_status_A, PyValue.isInstStr, PyValue.isInstInt, PyValue.intVal, h]
  · intro n h
    have h2 : ¬(0 < n) := by omega
    simp [check_status_A, PyValue.isInstStr, PyValue.isInstInt, PyValue.intVal, h2]

/-- Witness for C8 at concrete inputs: "foo" is rejected, 7 is accepted,
-3 is rejected. -/
theorem check_status_A_spec_witness :
    check_status_A (.pystr (strCP "foo")) = false
    ∧ check_status_A (.pyint 7) = true
    ∧ check_status_A (.pyint (-3)) = false :=
  ⟨check_status_A_spec.2.2.2.2.1 (strCP "foo") (by decide),
   check_status_A_spec.2.2.2.2.2.1 7 (by decide),
   check_status_A_spec.2.2.2.2.2.2.2.1 (-3) (by decide)⟩

/-- C3: `check_status_B` (per the evident intent of lines 137-159; line 155
itself is a syntax error, see `check_status_B`) returns false for `None`;
true for a string that strips and case-folds to "enabled"; false for
"active"; true for integer 0 and every integer > 0 (so the asymmetry
`check_status_A 0 = false` while `check_status_B 0 = true` holds); false
for negative integers and for any other type. -/
theorem check_status_B_intended_spec :
    check_status_B .pynone = false
    ∧ check_status_B (.pystr (strCP "enabled")) = true
    ∧ check_status_B (.pystr (strCP " ENABLED ")) = true
    ∧ check_status_B (.pystr (strCP "active")) = false
    ∧ (∀ n : ℤ, 0 ≤ n → check_status_B (.pyint n) = true)
    ∧ (∀ n : ℤ, n < 0 → check_status_B (.pyint n) = false)
    ∧ check_status_B (.pyint 0) = true
    ∧ check_status_A (.pyint 0) = false
    ∧ check_status_B .pyother = false := by
  refine ⟨by decide, by decide, by decide, by decide, ?_, ?_, by decide, by decide,
    by decide⟩
  · intro n h
    simp [check_status_B, PyValue.isInstStr, PyValue.isInstInt, PyValue.intVal, h]
  · intro n h
    have h2 : ¬(0 ≤ n) := by omega
    simp [check_status_B, PyValue.isInstStr, PyValue.isInstInt, PyValue.intVal, h2]

/-- Witness for C3 at concrete inputs: 5 is accepted, -2 is rejected. -/
theorem check_status_B_intended_spec_witness :
    check_status_B (.pyint 5) = true ∧ check_status_B (.pyint (-2)) = false :=
  ⟨check_status_B_intended_spec.2.2.2.2.1 5 (by decide),
   check_status_B_intended_spec.2.2.2.2.2.1 (-2) (by decide)⟩

/-- C10: booleans go through the integer branch of both status checks
(Python's `bool` is a subtype of `int`): `check_status_A True = True`,
`check_status_B False = True`, and each check agrees on a boolean and on
the integer the boolean equals.  The `check_status_B` half is proved of
the docstring-intent model only, since line 155 of the source is a syntax
error and no call of the source `check_status_B` can return at all (see
`check_status_B`). -/
theorem status_checks_bool_as_int :
    check_status_A (.pybool true) = true
    ∧ check_status_B (.pybool false) = true
    ∧ (∀ b : Bool, check_status_A (.pybool b) =
        check_status_A (.pyint ((PyValue.pybool b).intVal)))
    ∧ (∀ b : Bool, check_status_B (.pybool b) =
        check_status_B (.pyint ((PyValue.pybool b).intVal))) := by
  exact ⟨by decide, by decide, by decide, by decide⟩

/-- C9: the file handle of `read_and_process_file_content` is released on
every exit path on which it was acquired — the successful path, the failing
read and the failing transform all run the `finally` close; when opening
itself fails no handle is acquired. -/
theorem read_file_handle_released (env : FileEnv) (key : List ℕ)
    (h : (read_and_process_file_content env key).acquired = true) :
    (read_and_process_file_content env key).released = true := by
  rcases env with ⟨pe, oo, ro, c⟩
  rcases hobf : obfuscate c key with _ | p <;>
    cases pe <;> cases oo <;> cases ro <;>
      simp_all [read_and_process_file_content]

/-- Witness for C9 at a concrete successful run: path exists, open and
read succeed, the handle is acquired and released. -/
theorem read_file_handle_released_witness :
    (read_and_process_file_content ⟨true, true, true, [72]⟩ [75]).released = true :=
  read_file_handle_released ⟨true, true, true, [72]⟩ [75] (by decide)

/-- C7 counterexample: with an existing path whose `open` fails (line 103
runs outside the `try` block), `read_and_process_file_content` lets the
exception propagate instead of reporting a Failure condition, refuting
"never raises ... on every failure during opening". -/
theorem read_file_open_failure_raises :
    (read_and_process_file_content ⟨true, false, true, []⟩ (strCP "DEFAULT_KEY")).raised
      = true := by
  decide

/-- C7 amended: `read_and_process_file_content` raises exactly when the
path exists but `open` fails; a nonexistent path is reported with an
absent result and no exception; failures during reading or during the XOR
transform are caught and yield an absent result with no exception. -/
theorem read_file_error_handling (env : FileEnv) (key : List ℕ) :
    ((read_and_process_file_content env key).raised = true ↔
      env.pathExists = true ∧ env.openOk = false)
    ∧ (env.pathExists = false →
        read_and_process_file_content env key =
          { result := none, raised := false, acquired := false, released := false })
    ∧ (env.pathExists = true → env.openOk = true → env.readOk = false →
        (read_and_process_file_content env key).result = none
        ∧ (read_and_process_file_content env key).raised = false)
    ∧ (env.pathExists = true → env.openOk = true → obfuscate env.content key = none →
        (read_and_process_file_content env key).result = none
        ∧ (read_and_process_file_content env key).raised = false) := by
  rcases env with ⟨pe, oo, ro, c⟩
  rcases hobf : obfuscate c key with _ | p <;>
    cases pe <;> cases oo <;> cases ro <;>
      simp [read_and_process_file_content, hobf]

/-- Witness for C7 (amended) at a concrete input: a nonexistent path gives
the no-raise, no-handle, absent-result outcome. -/
theorem read_file_error_handling_witness :
    read_and_process_file_content ⟨false, true, true, []⟩ [75] =
      { result := none, raised := false, acquired := false, released := false } :=
  (read_file_error_handling ⟨false, true, true, []⟩ [75]).2.1 rfl

/-- The shift of one item succeeds and is the plain +1 map when every
shifted code point stays in `chr` range. -/
lemma shiftItem_eq_some (item : List ℕ) (h : ∀ c ∈ item, c + 1 ≤ maxCP) :
    shiftItem item = some (item.map (fun c => c + 1)) := by
  induction item with
  | nil => rfl
  | cons c rest ih =>
    have hc : c + 1 ≤ maxCP := h c (List.mem_cons_self _ _)
    rw [shiftItem, if_pos hc, ih (fun x hx => h x (List.mem_cons_of_mem _ hx))]
    rfl

/-- The shift of one item raises when some shifted code point leaves
`chr` range. -/
lemma shiftItem_eq_none (item : List ℕ) (h : ∃ c ∈ item, maxCP < c + 1) :
    shiftItem item = none := by
  induction item with
  | nil => simp at h
  | cons c rest ih =>
    rcases h with ⟨x, hx, hgt⟩
    rcases List.mem_cons.mp hx with rfl | hmem
    · rw [shiftItem, if_neg (by omega)]
    · by_cases hc : c + 1 ≤ maxCP
      · rw [shiftItem, if_pos hc, ih ⟨x, hmem, hgt⟩]
        rfl
      · rw [shiftItem, if_neg hc]

/-- The first loop of `process_and_filter_data` in compositional form when
no shift raises: keep items of length at most `max_length`, shift every
code point by +1. -/
lemma buildTemp_eq_some (m : ℕ) (d : List (List ℕ))
    (h : ∀ item ∈ d, item.length ≤ m → ∀ c ∈ item, c + 1 ≤ maxCP) :
    buildTemp m d =
      some ((d.filter (fun item => item.length ≤ m)).map (List.map (fun c => c + 1))) := by
  induction d with
  | nil => rfl
  | cons a d ih =>
    have ih2 := ih (fun item hi => h item (List.mem_cons_of_mem _ hi))
    by_cases ha : a.length ≤ m
    · have h2 : ¬(a.length > m) := by omega
      have hs := shiftItem_eq_some a (h a (List.mem_cons_self _ _) ha)
      rw [buildTemp, if_neg h2, hs, ih2]
      simp [List.filter_cons, ha]
    · have h2 : a.length > m := by omega
      rw [buildTemp, if_pos h2, ih2]
      simp [List.filter_cons, ha]

/-- The first loop of `process_and_filter_data` raises (propagates the
`ValueError` of `chr`) when some item short enough to be transformed
contains a code point whose shift leaves `chr` range. -/
lemma buildTemp_eq_none (m : ℕ) (d : List (List ℕ))
    (h : ∃ item ∈ d, item.length ≤ m ∧ ∃ c ∈ item, maxCP < c + 1) :
    buildTemp m d = none := by
  induction d with
  | nil => simp at h
  | cons a d ih =>
    rcases h with ⟨item, hmem, hlen, hc⟩
    rcases List.mem_cons.mp hmem with rfl | hmem2
    · have h2 : ¬(item.length > m) := by omega
      rw [buildTemp, if_neg h2, shiftItem_eq_none item hc]
    · have ihn := ih ⟨item, hmem2, hlen, hc⟩
      by_cases ha : a.length > m
      · rw [buildTemp, if_pos ha, ihn]
      · rw [buildTemp, if_neg ha, ihn]
        cases shiftItem a <;> rfl

/-- The second loop of `process_and_filter_data` in compositional form:
filter by case-insensitive substring containment, then reverse the items
of even length. -/
lemma buildFiltered_eq (f : List ℕ) (l : List (List ℕ)) :
    buildFiltered f l =
      (l.filter (fun p => hasSub (pyUpper f) (pyUpper p))).map
        (fun p => if p.length % 2 = 0 then p.reverse else p) := by
  induction l with
  | nil => rfl
  | cons a l ih =>
    by_cases h : hasSub (pyUpper f) (pyUpper a) = true
    · simp [buildFiltered, h, List.filter_cons, ih]
    · simp [buildFiltered, h, List.filter_cons, ih]

/-- Appending `'|'` after every item equals the `'|'`-join followed by one
trailing `'|'`, for a nonempty item list. -/
lemma joinLoop_eq : ∀ l : List (List ℕ), l ≠ [] →
    joinLoop l = List.intercalate [barCP] l ++ [barCP]
  | [], h => absurd rfl h
  | [a], _ => by simp [joinLoop, List.intercalate]
  | a :: b :: l2, _ => by
    rw [joinLoop, joinLoop_eq (b :: l2) (by simp)]
    simp [List.intercalate, List.intersperse_cons_cons, List.append_assoc]

/-- `joinLoop` yields the empty string only on the empty item list. -/
lemma joinLoop_eq_nil_iff (l : List (List ℕ)) : joinLoop l = [] ↔ l = [] := by
  cases l <;> simp [joinLoop]

/-- Stripping `'|'` from both ends absorbs a trailing `'|'`. -/
lemma stripBar_append_bar (x : List ℕ) : stripBar (x ++ [barCP]) = stripBar x := by
  unfold stripBar
  rw [List.dropWhile_append]
  by_cases h : (x.dropWhile (fun c => c = barCP)).isEmpty
  · have hx : x.dropWhile (fun c => c = barCP) = [] := by
      simpa [List.isEmpty_iff] using h
    simp [h, hx, List.dropWhile]
  · rw [if_neg h]
    simp [List.reverse_append, List.dropWhile]

/-- C4 (amended): whenever the shift loop does not raise (so the function
returns a string at all), the returned string is the surviving items
joined in order with one `'|'` between consecutive items and then
stripped of all leading and trailing `'|'` code points (Python
`strip('|')` on line 44), and when zero items survive the result is
exactly the empty string.  (The plain join of the original claim fails
when a surviving item itself starts or ends with `'|'`; see the
counterexample.) -/
theorem process_and_filter_data_join_strip (d : List (List ℕ)) (f : List ℕ) (m : ℕ)
    (sv : List (List ℕ)) (h : survivors d f m = some sv) :
    process_and_filter_data d f m = some (stripBar (List.intercalate [barCP] sv))
    ∧ (sv = [] → process_and_filter_data d f m = some []) := by
  rcases Option.map_eq_some'.mp h with ⟨temp, htemp, hsv⟩
  subst hsv
  constructor
  · simp only [process_and_filter_data, htemp]
    by_cases hempty : buildFiltered f temp = []
    · simp [hempty, joinLoop, stripBar, List.intercalate]
    · have h1 : joinLoop (buildFiltered f temp) ≠ [] := by
        simpa [joinLoop_eq_nil_iff] using hempty
      rw [if_neg h1, joinLoop_eq _ hempty, stripBar_append_bar]
  · intro h0
    simp [process_and_filter_data, htemp, h0, joinLoop]

/-- Witness for C4 (amended) at a concrete input: the empty input list
survives nothing and returns the empty string. -/
theorem process_and_filter_data_join_strip_witness :
    process_and_filter_data [] [65] 10 = some [] :=
  (process_and_filter_data_join_strip [] [65] 10 [] rfl).2 rfl

/-- C4 counterexample: for input `["{a"]` with filter character `'b'`, the
single surviving item is `"b|"` ([98, 124]), so the claimed plain
`'|'`-join is `"b|"`, but the function returns `"b"` — the trailing
`strip('|')` on line 44 removes a character belonging to the item itself,
refuting "no other characters added or removed". -/
theorem process_and_filter_data_join_counterexample :
    process_and_filter_data [[123, 97]] [98] 10 ≠
      Option.map (List.intercalate [barCP]) (survivors [[123, 97]] [98] 10) := by
  decide

/-- C5: when every kept item's code points shift within `chr` range, the
surviving items are exactly the input items processed in order — those
whose length exceeds `max_length` discarded untransformed, every code
point of the rest shifted up by 1, a transformed item kept iff its
upper-cased form contains the upper-cased filter token as a substring,
kept items of even length reversed and odd-length ones left unchanged;
when some kept item contains a code point whose shift leaves `chr` range
the function instead propagates `chr`'s `ValueError`; and in particular
`process_and_filter_data ["AB"] "B" 10 = "CB"`. -/
theorem process_and_filter_data_pipeline (d : List (List ℕ)) (f : List ℕ) (m : ℕ) :
    ((∀ item ∈ d, item.length ≤ m → ∀ c ∈ item, c + 1 ≤ maxCP) →
      survivors d f m = some
        ((((d.filter (fun item => item.length ≤ m)).map (List.map (fun c => c + 1))).filter
          (fun p => hasSub (pyUpper f) (pyUpper p))).map
          (fun p => if p.length % 2 = 0 then p.reverse else p)))
    ∧ ((∃ item ∈ d, item.length ≤ m ∧ ∃ c ∈ item, maxCP < c + 1) →
      process_and_filter_data d f m = none)
    ∧ process_and_filter_data [[65, 66]] [66] 10 = some [67, 66] := by
  refine ⟨?_, ?_, by decide⟩
  · intro h
    rw [survivors, buildTemp_eq_some m d h, Option.map_some', buildFiltered_eq]
  · intro h
    simp [process_and_filter_data, buildTemp_eq_none m d h]

/-- Witness for C5 at concrete inputs: `["AB"]` with filter `'B'` survives
as `["CB"]`, and an item holding U+10FFFF makes the function raise. -/
theorem process_and_filter_data_pipeline_witness :
    survivors [[65, 66]] [66] 10 = some [[67, 66]]
    ∧ process_and_filter_data [[1114111]] [66] 10 = none :=
  ⟨((process_and_filter_data_pipeline [[65, 66]] [66] 10).1 (by decide)).trans (by decide),
   (process_and_filter_data_pipeline [[1114111]] [66] 10).2.1 (by decide)⟩

/-- The `total_sum` contribution of the remaining elements when the next
element sits at zero-based position `i` of the original sequence. -/
def offSum : List MetricElem → ℕ → ℚ
  | [], _ => 0
  | some x :: rest, i => x / ((i : ℚ) + 1) + offSum rest (i + 1)
  | none :: rest, i => offSum rest (i + 1)

/-- The `product_sum` contribution of the remaining elements when the next
element sits at zero-based position `i` of the original sequence. -/
def offProd (wf : ℚ) : List MetricElem → ℕ → ℚ
  | [], _ => 1
  | some x :: rest, i => (x + wf) * offProd wf rest (i + 1)
  | none :: rest, i => offProd wf rest (i + 1)

/-- The accumulation loop computes exactly the accumulated sum and
product contributions. -/
lemma metricLoop_eq (wf : ℚ) :
    ∀ (l : List MetricElem) (i : ℕ) (t p : ℚ),
      metricLoop wf l i (t, p) = (t + offSum l i, p * offProd wf l i)
  | [], i, t, p => by simp [metricLoop, offSum, offProd]
  | some x :: rest, i, t, p => by
    rw [metricLoop, metricLoop_eq wf rest (i + 1), offSum, offProd]
    rw [Prod.mk.injEq]
    constructor <;> ring
  | none :: rest, i, t, p => by
    rw [metricLoop, metricLoop_eq wf rest (i + 1), offSum, offProd]

/-- The summands of `totalSum` enumerated from position `n` add up to
`offSum` from `n`. -/
lemma enumFrom_offSum (l : List MetricElem) :
    ∀ n : ℕ, ((List.enumFrom n l).map (fun p =>
      match p.2 with
      | some x => x / ((p.1 : ℚ) + 1)
      | none => 0)).sum = offSum l n := by
  induction l with
  | nil => intro n; simp [offSum]
  | cons a l ih =>
    intro n
    cases a with
    | some x => simp [List.enumFrom, offSum, ih]
    | none => simp [List.enumFrom, offSum, ih]

/-- The factors of `productSum` enumerated from position `n` multiply to
`offProd` from `n`. -/
lemma enumFrom_offProd (wf : ℚ) (l : List MetricElem) :
    ∀ n : ℕ, ((List.enumFrom n l).map (fun p =>
      match p.2 with
      | some x => x + wf
      | none => 1)).prod = offProd wf l n := by
  induction l with
  | nil => intro n; simp [offProd]
  | cons a l ih =>
    intro n
    cases a with
    | some x => simp [List.enumFrom, offProd, ih]
    | none => simp [List.enumFrom, offProd, ih]

/-- Run from the start with accumulators `(0, 1)`, the loop returns the
claim's closed forms `totalSum` and `productSum`. -/
lemma metricLoop_closed_form (wf : ℚ) (l : List MetricElem) :
    metricLoop wf l 0 (0, 1) = (totalSum l, productSum wf l) := by
  rw [metricLoop_eq]
  have h1 : totalSum l = offSum l 0 := enumFrom_offSum l 0
  have h2 : productSum wf l = offProd wf l 0 := enumFrom_offProd wf l 0
  rw [h1, h2, zero_add, one_mul]

/-- Natural-logarithm bounds used for the claims' concrete examples:
`0 ≤ log 2 < 1`. -/
lemma log_two_bounds : (0 : ℝ) ≤ Real.log 2 ∧ Real.log 2 < 1 := by
  constructor
  · exact Real.log_nonneg (by norm_num)
  · have h := Real.log_two_lt_d9
    linarith

/-- Natural-logarithm bounds used for the claims' concrete examples:
`3/2 ≤ log 6 < 5/2`. -/
lemma log_six_bounds : (3 / 2 : ℝ) ≤ Real.log 6 ∧ Real.log 6 < 5 / 2 := by
  have h6 : (0 : ℝ) < 6 := by norm_num
  constructor
  · rw [Real.le_log_iff_exp_le h6]
    have hsq : Real.exp (3 / 2) ^ 2 = Real.exp 3 := by
      rw [sq, ← Real.exp_add]
      norm_num
    have hcube : Real.exp 3 = Real.exp 1 ^ 3 := by
      rw [show (3 : ℝ) = (3 : ℕ) * 1 by norm_num, Real.exp_nat_mul]
    have h3 : Real.exp 3 < 36 := by
      rw [hcube]
      have hlt : Real.exp 1 ^ 3 < (2.7182818286 : ℝ) ^ 3 :=
        pow_lt_pow_left₀ Real.exp_one_lt_d9 (Real.exp_pos 1).le (by norm_num)
      calc Real.exp 1 ^ 3 < (2.7182818286 : ℝ) ^ 3 := hlt
        _ < 36 := by norm_num
    nlinarith [Real.exp_pos (3 / 2 : ℝ)]
  · rw [Real.log_lt_iff_lt_exp h6]
    have h2 : Real.exp 2 ≤ Real.exp (5 / 2) := Real.exp_le_exp.mpr (by norm_num)
    have hsq : Real.exp 2 = Real.exp 1 ^ 2 := by
      rw [show (2 : ℝ) = (2 : ℕ) * 1 by norm_num, Real.exp_nat_mul]
    nlinarith [Real.exp_one_gt_d9]

/-- C1: `calculate_complex_metric` returns 0.0 on the empty sequence;
on a nonempty sequence it returns `floor(total_sum + ln(product_sum))`
when `product_sum > 0` and 0.0 otherwise, where `total_sum` is the sum
over the successfully coerced elements of `value / (i + 1)` (`i` the
element's zero-based position in the original sequence) and `product_sum`
is the product of `value + weight_offset` starting from 1; in particular
the metric of `[1, 2]` with weight offset 0 is 2. -/
theorem calculate_complex_metric_spec (values : List MetricElem) (wf : ℚ) :
    calculate_complex_metric [] wf = 0
    ∧ (values ≠ [] → calculate_complex_metric values wf =
        (if 0 < productSum wf values then
          ((⌊((totalSum values : ℚ) : ℝ) +
            Real.log ((productSum wf values : ℚ) : ℝ)⌋ : ℤ) : ℝ)
        else 0))
    ∧ calculate_complex_metric [some 1, some 2] 0 = 2 := by
  refine ⟨by simp [calculate_complex_metric], ?_, ?_⟩
  · intro h
    rw [calculate_complex_metric, if_neg h, metricLoop_closed_form]
  · have hne : ¬(([some 1, some 2] : List MetricElem) = []) := by simp
    have hloop : metricLoop 0 [some 1, some 2] 0 (0, 1) = (2, 2) := by
      norm_num [metricLoop]
    have hfloor : ⌊(2 : ℝ) + Real.log 2⌋ = 2 := by
      have hb := log_two_bounds
      rw [Int.floor_eq_iff]
      constructor
      · push_cast
        linarith [hb.1]
      · push_cast
        linarith [hb.2]
    rw [calculate_complex_metric, if_neg hne, hloop]
    norm_num [hfloor]

/-- Witness for C1 at concrete input `[some 1]` with weight offset 2:
the nonempty-case formula instantiates. -/
theorem calculate_complex_metric_spec_witness :
    calculate_complex_metric [some 1] 2 =
      (if 0 < productSum 2 [some 1] then
        ((⌊((totalSum [some 1] : ℚ) : ℝ) +
          Real.log ((productSum 2 [some 1] : ℚ) : ℝ)⌋ : ℤ) : ℝ)
      else 0) :=
  (calculate_complex_metric_spec [some 1] 2).2.1 (by simp)

/-- C6: a non-coercible element of `calculate_complex_metric` is skipped
without aborting — the loop on `none :: rest` continues on `rest` with the
index advanced, so later elements keep their original-position divisors —
and in particular the metric of `["x", 5]` (modelled `[none, some 5]`)
with the default weight offset 1 has `total_sum = 5/2`, `product_sum = 6`
and value `floor(5/2 + ln 6) = 4`. -/
theorem calculate_complex_metric_skip :
    (∀ (rest : List MetricElem) (i : ℕ) (acc : ℚ × ℚ) (wf : ℚ),
      metricLoop wf (none :: rest) i acc = metricLoop wf rest (i + 1) acc)
    ∧ totalSum [none, some 5] = 5 / 2
    ∧ productSum 1 [none, some 5] = 6
    ∧ calculate_complex_metric [none, some 5] 1 = 4 := by
  refine ⟨?_, ?_, ?_, ?_⟩
  · intro rest i acc wf
    rcases acc with ⟨t, p⟩
    rw [metricLoop]
  · norm_num [totalSum, List.enum, List.enumFrom]
  · norm_num [productSum, List.enum, List.enumFrom]
  · have hne : ¬(([none, some 5] : List MetricElem) = []) := by simp
    have hloop : metricLoop 1 [none, some 5] 0 (0, 1) = (5 / 2, 6) := by
      norm_num [metricLoop]
    have hfloor : ⌊(5 / 2 : ℝ) + Real.log 6⌋ = 4 := by
      have hb := log_six_bounds
      rw [Int.floor_eq_iff]
      constructor
      · push_cast
        linarith [hb.1]
      · push_cast
        linarith [hb.2]
    rw [calculate_complex_metric, if_neg hne, hloop]
    norm_num [hfloor]
